import Mathlib

/-!
Verification development for the wmcompanion event-dispatch and process-supervision
runtime.  The definitions below are shallow embeddings of the Python sources:

* `src/wmcompanion/event_listening.py` — `EventListener.trigger`,
  `EventWatcher.get_listener`, `EventWatcher.add_callback`;
* `src/wmcompanion/decorators.py` — `SoftDecorator.add_self_reference` /
  `with_decorators`, `UseDecorator.apply`, `OnDecorator.apply`;
* `src/wmcompanion/utils/process.py` — `ProcessWatcher._watch`, `ProcessWatcher.stop`.

Python dicts are modeled as insertion-ordered association lists, Python `int`
timestamps as `Int`, coroutine side effects as explicit action lists, and
exceptions as an `Option String` error slot in the result.
-/

namespace Wmcompanion

/-- Python values appearing in event payloads and decorator arguments; integers and
strings cover every payload this development reasons about. -/
inductive PyVal where
  | int (n : Int)
  | str (s : String)
deriving DecidableEq, Repr

/-- A Python dict, modeled as an insertion-ordered association list with `String`
keys.  A well-formed dict has pairwise distinct keys. -/
abbrev PyDict (α : Type) := List (String × α)

/-- The `value` dict handed to `EventListener.trigger`. -/
abbrev Payload := PyDict PyVal

/-- Dict lookup: the value stored at `key`, reading entries front to back. -/
def dictLookup {α : Type} : PyDict α → String → Option α
  | [], _ => none
  | (k, v) :: rest, key => if k = key then some v else dictLookup rest key

/-- Python `d[key] = v`: overwrite the existing entry in place when the key is
present, otherwise append a new entry (dict insertion order). -/
def dictSet {α : Type} : PyDict α → String → α → PyDict α
  | [], key, v => [(key, v)]
  | (k, w) :: rest, key, v =>
    if k = key then (key, v) :: rest else (k, w) :: dictSet rest key v

/-- Python `==` between dicts: structural value equality of the key-to-value
mapping; insertion order does not participate. -/
def pyDictEq {α : Type} [DecidableEq α] (a b : PyDict α) : Bool :=
  (a.all fun kv => decide (dictLookup b kv.1 = some kv.2)) &&
  (b.all fun kv => decide (dictLookup a kv.1 = some kv.2))

/-- Python truthiness of `value` in `trigger`: `None` and the empty dict are falsy. -/
def dictTruthy : Option Payload → Bool
  | none => false
  | some d => !d.isEmpty

/-- Python `value == self.previous_trigger_argument`, where either side may be
`None`: a dict never equals `None`, while `None == None` holds. -/
def pyValueEq : Option Payload → Option Payload → Bool
  | some a, some b => pyDictEq a b
  | none, none => true
  | _, _ => false

/-- The mutable state of one `EventListener` instance: its class name (as produced
by `EventListener.name`), the attribute overrides applied by
`EventWatcher.get_listener` via `setattr`, the `previous_trigger_argument` dedup
field, and the registered callbacks in registration order.  Callbacks are
identified by numeric ids; their decorator structure is modeled separately. -/
structure EventListener where
  className : String
  attributes : PyDict String
  previousTriggerArgument : Option Payload
  callbacks : List Nat
deriving DecidableEq, Repr

/-- Result of one `EventListener.trigger` call: the listener state afterwards, the
sequence of callback invocations actually performed — in execution order, each
pair holding the callback id and the event dict passed as its leading argument —
and the exception raised, if any.  Because dispatch awaits every callback to
completion before starting the next, the invocation list is exactly the
sequential execution order. -/
structure TriggerOutcome where
  state : EventListener
  invocations : List (Nat × Payload)
  raised : Option String
deriving DecidableEq, Repr

/-- Shallow embedding of `EventListener.trigger` (event_listening.py:67-95).
The dedup guard returns early when duplicates are not allowed, `value` is truthy
and compares `==` to the previous trigger argument.  Otherwise the previous
argument is recorded and, for each registered callback in order, a copy of
`value` is made (raising `AttributeError` on `None`), the listener class name is
written under the `"event-class"` key, and the callback is invoked with that
event dict bound as its leading argument (see `OnDecorator.apply`). -/
def trigger (l : EventListener) (value : Option Payload) (allowDuplicateEvents : Bool) :
    TriggerOutcome :=
  if !allowDuplicateEvents && dictTruthy value &&
      pyValueEq value l.previousTriggerArgument then
    ⟨l, [], none⟩
  else
    let l2 : EventListener := { l with previousTriggerArgument := value }
    match value with
    | none =>
      if l2.callbacks.isEmpty then ⟨l2, [], none⟩
      else ⟨l2, [], some "AttributeError: NoneType object has no attribute copy"⟩
    | some v =>
      ⟨l2, l2.callbacks.map fun cb => (cb, dictSet v "event-class" (PyVal.str l2.className)),
        none⟩

/-- Supervision state of `ProcessWatcher` (utils/process.py).  Timestamps are whole
seconds as `Int`; `lastRestartedAt = 0` is the constructor's sentinel for "never
restarted" and is falsy, exactly like the Python `0` initializer.  Fields of the
Python class that play no part in the supervision logic (exec arguments, task
set, process handle, the hook callables themselves) are not represented; hook
invocations appear as explicit actions instead. -/
structure ProcessWatcher where
  retries : Nat
  retryThresholdSeconds : Int
  stopped : Bool
  retryAttempts : Nat
  lastRestartedAt : Int
deriving DecidableEq, Repr

/-- Constructor state of `ProcessWatcher.__init__`: not stopped, zero retry
attempts, never restarted. -/
def mkProcessWatcher (retries : Nat) (retryThresholdSeconds : Int) : ProcessWatcher :=
  { retries := retries
    retryThresholdSeconds := retryThresholdSeconds
    stopped := false
    retryAttempts := 0
    lastRestartedAt := 0 }

/-- Observable outcome of one `_watch` wakeup after the child exits: either a
restart (recording the backoff slept, in seconds, before `start()` was called
again), the single `failure_callback` invocation, or no action at all (the exit
followed a deliberate `stop()`). -/
inductive WatchAction where
  | restart (sleptSeconds : Nat)
  | failure
  | noAction
deriving DecidableEq, Repr

/-- The retry-staleness reset at the top of `ProcessWatcher._watch`
(process.py:93-96): when a restart has happened before (truthy timestamp) and it
lies at or beyond `retry_threshold_seconds` in the past, the retry counter is
cleared. -/
def watchReset (p : ProcessWatcher) (now : Int) : ProcessWatcher :=
  if p.lastRestartedAt ≠ 0 ∧ p.lastRestartedAt ≤ now - p.retryThresholdSeconds then
    { p with retryAttempts := 0 }
  else p

/-- Shallow embedding of `ProcessWatcher._watch` (process.py:90-119), entered at
the moment `proc.wait()` returns, at time `now`.  After the staleness reset, a
deliberately stopped watcher takes no action; otherwise, below the retry budget
the counter is incremented, `2 ^ retry_attempts` seconds are slept, the restart
timestamp is recorded and the child is started again.  With the budget exhausted
the failure hook runs.  The model takes the sleep as exact, so the recorded
restart timestamp is `now + 2 ^ attempts`. -/
def watchStep (p : ProcessWatcher) (now : Int) : ProcessWatcher × WatchAction :=
  let p1 := watchReset p now
  if p1.stopped then (p1, WatchAction.noAction)
  else if p1.retryAttempts < p1.retries then
    let attempts := p1.retryAttempts + 1
    let slept : Nat := 2 ^ attempts
    ({ p1 with retryAttempts := attempts, lastRestartedAt := now + (slept : Int) },
      WatchAction.restart slept)
  else (p1, WatchAction.failure)

/-- Drives `watchStep` against a child that exits immediately after every start:
each restart is followed by a crash observed at the restart timestamp itself.
After a failure or a no-action outcome `start()` is not called again, so no
further watcher runs. -/
def runCrashLoop : ProcessWatcher → Int → Nat → List WatchAction
  | _, _, 0 => []
  | p, now, fuel + 1 =>
    match watchStep p now with
    | (p2, WatchAction.restart slept) =>
      WatchAction.restart slept :: runCrashLoop p2 (now + (slept : Int)) fuel
    | (_, act) => [act]

/-- The three externally visible steps of `ProcessWatcher.stop` (process.py:70-81),
in program order: the deliberate-stop flag is written, then the kill signal is
sent, then the child's termination is awaited before `stop` returns. -/
inductive StopAction where
  | setStoppedFlag
  | killProcess
  | awaitTermination
deriving DecidableEq, BEq, Repr

/-- Shallow embedding of `ProcessWatcher.stop`: the state afterwards and the
ordered list of steps it performs. -/
def stopRun (p : ProcessWatcher) : ProcessWatcher × List StopAction :=
  ({ p with stopped := true },
    [StopAction.setStoppedFlag, StopAction.killProcess, StopAction.awaitTermination])

/-- One decorator envelope recorded in the function's `_annotation_decorators`
list (`SoftDecorator.DecoratorEnvelope`): which decorator object it points to,
together with the arguments that matter to its `apply`.  `use` carries the
dependency identifiers passed to `UseDecorator`; `onEvent` is an
`OnDecorator` envelope (its event-class arguments play no role in `apply`). -/
inductive EnvKind where
  | use (deps : List Nat)
  | onEvent
deriving DecidableEq, Repr

/-- Attributes of the original function object that materialization reads and
writes: the accumulated envelope list and the smuggled `event_object` attribute
(`none` models the attribute being absent). -/
structure PyFunction where
  envelopes : List EnvKind
  eventObject : Option Payload
deriving DecidableEq, Repr

/-- The wrap-nesting structure of a materialized callable: which decorator's
transform wraps which.  `original` is the undecorated function. -/
inductive MatFn where
  | original (fnId : Nat)
  | wrapped (kind : EnvKind) (inner : MatFn)
deriving DecidableEq, Repr

/-- A positional argument bound onto a callable by `functools.partial`: an object
resolved from the container (`UseDecorator`) or the event dict (`OnDecorator`,
`none` when no `event_object` attribute was present). -/
inductive PyArg where
  | obj (dep : Nat)
  | event (value : Option Payload)
deriving DecidableEq, Repr

/-- One stage of the materialization chain: its nesting structure, the positional
arguments bound so far (leftmost first), its attribute dict (written by
`functools.update_wrapper`, which copies the original function's `__dict__`),
and its `original_function` attribute. -/
structure Stage where
  tree : MatFn
  bound : List PyArg
  attrs : PyFunction
  originalFunction : Nat
deriving DecidableEq, Repr

/-- The original function object viewed as stage zero of materialization:
`add_self_reference` stores `original_function = function` on it, and no
arguments are bound yet. -/
def origStage (fid : Nat) (f : PyFunction) : Stage :=
  { tree := MatFn.original fid, bound := [], attrs := f, originalFunction := fid }

/-- Fold state while `with_decorators` walks the reversed envelope list: the
stage the next `apply` receives, the current attributes of the original
function object, and whether the received stage still is the original object
(so that `del function.event_object` would hit the original). -/
structure MatState where
  cur : Stage
  orig : PyFunction
  curIsOrig : Bool
deriving DecidableEq, Repr

/-- One `decorator_envelope.object.apply(function, args, kwargs)` call.

`UseDecorator.apply` (decorators.py:108-116) with an empty dependency list never
enters its loop and returns the received callable unchanged; otherwise it binds
each resolved object as a further leading positional argument, left to right,
and `update_wrapper` copies the original function's current `__dict__` and sets
`original_function` from it.

`OnDecorator.apply` (decorators.py:161-173) reads `event_object` from the
received callable, binds it as the next leading positional argument, deletes the
attribute when its value is truthy (which reaches the original object only when
the received callable *is* the original), and wraps the result like the
original function. -/
def applyStep (fid : Nat) (st : MatState) (k : EnvKind) : MatState :=
  match k with
  | EnvKind.use deps =>
    if deps.isEmpty then st
    else
      { cur :=
          { tree := MatFn.wrapped (EnvKind.use deps) st.cur.tree
            bound := st.cur.bound ++ deps.map PyArg.obj
            attrs := st.orig
            originalFunction := fid }
        orig := st.orig
        curIsOrig := false }
  | EnvKind.onEvent =>
    let ev := st.cur.attrs.eventObject
    let orig2 :=
      if dictTruthy ev ∧ st.curIsOrig then { st.orig with eventObject := none }
      else st.orig
    { cur :=
        { tree := MatFn.wrapped EnvKind.onEvent st.cur.tree
          bound := st.cur.bound ++ [PyArg.event ev]
          attrs := orig2
          originalFunction := fid }
      orig := orig2
      curIsOrig := false }

/-- The loop body of `with_decorators` (decorators.py:68-80) over an explicit
envelope list, front to back. -/
def runEnvelopes (fid : Nat) : MatState → List EnvKind → MatState
  | st, [] => st
  | st, k :: rest => runEnvelopes fid (applyStep fid st k) rest

/-- `with_decorators()`: starting from the original function, applies every
accumulated envelope by iterating the envelope list in reverse. -/
def withDecoratorsRun (fid : Nat) (f : PyFunction) : MatState :=
  runEnvelopes fid { cur := origStage fid f, orig := f, curIsOrig := true }
    f.envelopes.reverse

/-- Every stage the materialization loop produces, the original included, in the
order the loop creates them. -/
def stagesAux (fid : Nat) : MatState → List EnvKind → List Stage
  | st, [] => [st.cur]
  | st, k :: rest => st.cur :: stagesAux fid (applyStep fid st k) rest

/-- All stages built by one `with_decorators()` call on `f`. -/
def stagesList (fid : Nat) (f : PyFunction) : List Stage :=
  stagesAux fid { cur := origStage fid f, orig := f, curIsOrig := true }
    f.envelopes.reverse

/-- The function at the core of a wrap nest: the one whose code ultimately runs. -/
def coreFn : MatFn → Nat
  | MatFn.original fid => fid
  | MatFn.wrapped _ inner => coreFn inner

/-- Calling a stage with further positional arguments: the original function
identified by the core of the nest runs, receiving the bound arguments followed
by the extra ones. -/
def callStage (s : Stage) (extra : List PyArg) : Nat × List PyArg :=
  (coreFn s.tree, s.bound ++ extra)

/-- The wrap nest determined by a starting nest and an envelope list processed
front to back (mirrors the tree component of `applyStep`). -/
def treeFold : MatFn → List EnvKind → MatFn
  | t, [] => t
  | t, EnvKind.use deps :: rest =>
    if deps.isEmpty then treeFold t rest
    else treeFold (MatFn.wrapped (EnvKind.use deps) t) rest
  | t, EnvKind.onEvent :: rest => treeFold (MatFn.wrapped EnvKind.onEvent t) rest

/-- Mutation of the object stored under a key of a dict, leaving every other
entry untouched (models calling a method on the instance held in the registry). -/
def dictUpdate {α : Type} : PyDict α → String → (α → α) → PyDict α
  | [], _, _ => []
  | (k, v) :: rest, key, f =>
    if k = key then (k, f v) :: rest else (k, v) :: dictUpdate rest key f

/-- The single-quote character, spelled by code point. -/
def squote : Char := Char.ofNat 39

/-- The opening-brace character of a Python dict display. -/
def obrace : Char := Char.ofNat 123

/-- The closing-brace character of a Python dict display. -/
def cbrace : Char := Char.ofNat 125

/-- Characters for which Python `repr` of a string is plainly quote-wrapped and
which this development allows in listener attribute keys and values:
alphanumerics and the underscore. -/
def plainChar (c : Char) : Bool := c.isAlphanum || c == '_'

/-- A string of plain characters only. -/
def plainStr (s : String) : Bool := s.data.all plainChar

/-- An attribute dict whose keys and values are all plain strings. -/
def plainAttrs (a : PyDict String) : Bool :=
  a.all fun kv => plainStr kv.1 && plainStr kv.2

/-- Character-level rendering of one `'key': 'value'` item of `str(dict)`. -/
def entryC (k v : List Char) : List Char :=
  squote :: k ++ squote :: ':' :: ' ' :: squote :: v ++ [squote]

/-- Character-level rendering of the comma-separated items of `str(dict)`. -/
def entriesC : List (List Char × List Char) → List Char
  | [] => []
  | [(k, v)] => entryC k v
  | (k, v) :: e2 :: rest => entryC k v ++ ',' :: ' ' :: entriesC (e2 :: rest)

/-- Character-level rendering of `str(dict)`, braces included. -/
def encDict (l : List (List Char × List Char)) : List Char :=
  obrace :: entriesC l ++ [cbrace]

/-- Python `str(attributes)` for a string-valued attribute dict, e.g.
`\x7b'ifname': 'eth0'\x7d`.  Faithful for plain keys and values, where `repr`
wraps in single quotes without escaping; all attribute dicts this development
evaluates are of that shape. -/
def pyStrDict (a : PyDict String) : String :=
  String.mk (encDict (a.map fun kv => (kv.1.data, kv.2.data)))

/-- The registry key built by `EventWatcher.get_listener` (event_listening.py:123-126):
the full class name, extended with `"[" + str(attributes) + "]"` when the
attribute dict is truthy. -/
def lookupKey (className : String) (attributes : PyDict String) : String :=
  if attributes.isEmpty then className
  else className ++ "[" ++ pyStrDict attributes ++ "]"

/-- The `EventWatcher` state the claims touch: its `listeners` registry, a dict
from lookup key to the live listener instance. -/
structure EventWatcher where
  listeners : PyDict EventListener
deriving DecidableEq, Repr

/-- A freshly constructed listener: `klass(self)` followed by the `setattr` loop
applying the attribute overrides. -/
def newListener (className : String) (attributes : PyDict String) : EventListener :=
  { className := className
    attributes := attributes
    previousTriggerArgument := none
    callbacks := [] }

/-- Shallow embedding of `EventWatcher.get_listener` (event_listening.py:119-133):
returns the registry afterwards together with the key naming the instance the
call resolved to.  A key already present resolves to its existing instance; an
absent key registers a fresh instance first. -/
def getListener (w : EventWatcher) (className : String) (attributes : PyDict String) :
    EventWatcher × String :=
  let key := lookupKey className attributes
  match dictLookup w.listeners key with
  | some _ => (w, key)
  | none => (⟨w.listeners ++ [(key, newListener className attributes)]⟩, key)

/-- Shallow embedding of `EventWatcher.add_callback` (event_listening.py:135-140):
resolves or creates the listener for the event, then appends the callback to its
callback list. -/
def watcherAddCallback (w : EventWatcher) (className : String)
    (attributes : PyDict String) (cb : Nat) : EventWatcher :=
  let res := getListener w className attributes
  ⟨dictUpdate res.1.listeners res.2 fun l => { l with callbacks := l.callbacks ++ [cb] }⟩

/-- End-to-end scenario state: a watcher with the `Battery` listener registered
with no attributes and callback `0` added via `on(Battery)`
(`OnDecorator.after_declared` normalizes `@on(Battery)` to
`add_callback([Battery, {}], function)`). -/
def batteryWatcher : EventWatcher :=
  watcherAddCallback ⟨[]⟩ "config.Battery" [] 0

/-- The `Battery` listener instance held by `batteryWatcher`. -/
def batteryListener : EventListener :=
  (dictLookup batteryWatcher.listeners "config.Battery").getD (newListener "" [])

/-- First trigger of the scenario: payload `\x7b"level": 50\x7d`. -/
def batteryT1 : TriggerOutcome :=
  trigger batteryListener (some [("level", PyVal.int 50)]) false

/-- Second trigger: the same payload again. -/
def batteryT2 : TriggerOutcome :=
  trigger batteryT1.state (some [("level", PyVal.int 50)]) false

/-- Third trigger: payload `\x7b"level": 40\x7d`. -/
def batteryT3 : TriggerOutcome :=
  trigger batteryT2.state (some [("level", PyVal.int 40)]) false

/-! Helper lemmas about the dict model. -/

theorem dictLookup_of_nodup {α : Type} (p : PyDict α)
    (h : (p.map Prod.fst).Nodup) : ∀ kv ∈ p, dictLookup p kv.1 = some kv.2 := by
  induction p with
  | nil => intro kv hkv; cases hkv
  | cons hd tl ih =>
    intro kv hkv
    obtain ⟨k, v⟩ := hd
    rw [List.map_cons, List.nodup_cons] at h
    rcases List.mem_cons.mp hkv with heq | hmem
    · subst heq; simp [dictLookup]
    · have hk : k ≠ kv.1 := fun he => h.1 (he ▸ List.mem_map.mpr ⟨kv, hmem, rfl⟩)
      simpa [dictLookup, hk] using ih h.2 kv hmem

theorem pyDictEq_refl {α : Type} [DecidableEq α] (p : PyDict α)
    (h : (p.map Prod.fst).Nodup) : pyDictEq p p = true := by
  unfold pyDictEq
  rw [Bool.and_eq_true, List.all_eq_true]
  exact ⟨fun kv hkv => by simpa using dictLookup_of_nodup p h kv hkv,
    fun kv hkv => by simpa using dictLookup_of_nodup p h kv hkv⟩

theorem isEmpty_false_of_ne_nil {α : Type} {l : List α} (h : l ≠ []) :
    l.isEmpty = false := by
  cases l with
  | nil => exact absurd rfl h
  | cons a as => rfl

/-- Claim C1, amended to nonempty payloads (counterexample:
`trigger_empty_payload_cex`): for every listener and every nonempty payload `p`
with distinct keys, calling `trigger p` twice in a row with
`allow_duplicate_events` left false invokes the registered callbacks only on
the first call — the second call leaves the state unchanged, raises nothing and
invokes no callback, by the structural dict comparison against the stored
previous payload; and when nothing was triggered before, the first call invokes
every registered callback. -/
theorem trigger_dedup_second_noop (l : EventListener) (p : Payload)
    (hnd : (p.map Prod.fst).Nodup) (hne : p ≠ []) :
    trigger (trigger l (some p) false).state (some p) false
      = ⟨(trigger l (some p) false).state, [], none⟩ ∧
    (l.previousTriggerArgument = none →
      (trigger l (some p) false).invocations
        = l.callbacks.map fun cb => (cb, dictSet p "event-class" (PyVal.str l.className))) := by
  have hTr : dictTruthy (some p) = true := by
    simp [dictTruthy, isEmpty_false_of_ne_nil hne]
  have hself : pyValueEq (some p) (some p) = true := by
    simp [pyValueEq, pyDictEq_refl p hnd]
  by_cases hc :
    (!false && dictTruthy (some p) && pyValueEq (some p) l.previousTriggerArgument) = true
  · have h1 : trigger l (some p) false = ⟨l, [], none⟩ := by
      unfold trigger; rw [if_pos hc]
    refine ⟨?_, ?_⟩
    · rw [h1]
      show trigger l (some p) false = _
      rw [h1]
    · intro hprev
      rw [hprev] at hc
      simp [pyValueEq] at hc
  · have h1 : trigger l (some p) false
        = ⟨{ l with previousTriggerArgument := some p },
            l.callbacks.map fun cb => (cb, dictSet p "event-class" (PyVal.str l.className)),
            none⟩ := by
      unfold trigger; rw [if_neg hc]
    refine ⟨?_, fun _ => by rw [h1]⟩
    rw [h1]
    show trigger { l with previousTriggerArgument := some p } (some p) false = _
    unfold trigger
    rw [if_pos (by simp [hTr, hself])]

/-- Witness for `trigger_dedup_second_noop` at a concrete listener and payload. -/
theorem trigger_dedup_second_noop_witness :
    ((([("level", PyVal.int 50)] : Payload).map Prod.fst).Nodup ∧
      ([("level", PyVal.int 50)] : Payload) ≠ []) ∧
    (trigger
        (trigger ⟨"mod.Batt", [], none, [7]⟩ (some [("level", PyVal.int 50)]) false).state
        (some [("level", PyVal.int 50)]) false
      = ⟨(trigger ⟨"mod.Batt", [], none, [7]⟩ (some [("level", PyVal.int 50)]) false).state,
          [], none⟩ ∧
      ((⟨"mod.Batt", [], none, [7]⟩ : EventListener).previousTriggerArgument = none →
        (trigger ⟨"mod.Batt", [], none, [7]⟩ (some [("level", PyVal.int 50)]) false).invocations
          = ([7] : List Nat).map fun cb =>
              (cb, dictSet [("level", PyVal.int 50)] "event-class" (PyVal.str "mod.Batt")))) :=
  ⟨⟨by decide, by decide⟩,
    trigger_dedup_second_noop ⟨"mod.Batt", [], none, [7]⟩ [("level", PyVal.int 50)]
      (by decide) (by decide)⟩

/-- Claim C1 counterexample: the dedup guard tests Python truthiness of the
payload, so the empty dict — although structurally identical to the stored
previous payload — is never deduplicated: triggering `\x7b\x7d` twice in a row
invokes the callback on the second call too. -/
theorem trigger_empty_payload_cex :
    (trigger ⟨"m.Listener", [], none, [0]⟩ (some []) false).state
      = ⟨"m.Listener", [], some [], [0]⟩ ∧
    (trigger ⟨"m.Listener", [], some [], [0]⟩ (some []) false).invocations
      = [(0, [("event-class", PyVal.str "m.Listener")])] ∧
    (trigger ⟨"m.Listener", [], some [], [0]⟩ (some []) false).invocations ≠ [] := by
  refine ⟨rfl, rfl, ?_⟩
  decide

/-- Claim C2: a single trigger call that dispatches invokes the callbacks
exactly in registration order, never reordered and never deduplicated — the
invocation sequence (which the model lists in execution order, each callback
awaited to completion before the next starts) is precisely the callback list
mapped to its event argument; a call that does not dispatch (dedup) invokes
nothing.  With duplicates allowed the dispatch always happens. -/
theorem trigger_invokes_in_registration_order (l : EventListener) (v : Payload)
    (allow : Bool) :
    ((trigger l (some v) allow).invocations = [] ∨
      (trigger l (some v) allow).invocations
        = l.callbacks.map fun cb => (cb, dictSet v "event-class" (PyVal.str l.className))) ∧
    (trigger l (some v) true).invocations
      = l.callbacks.map fun cb => (cb, dictSet v "event-class" (PyVal.str l.className)) := by
  constructor
  · by_cases hc :
      (!allow && dictTruthy (some v) && pyValueEq (some v) l.previousTriggerArgument) = true
    · left; unfold trigger; rw [if_pos hc]
    · right; unfold trigger; rw [if_neg hc]
  · unfold trigger
    rw [if_neg (by simp)]

/-- Claim C10: triggering with the payload left at its absent (`None`) default
raises `AttributeError` inside the dispatch loop — `value.copy()` on `None` —
before any callback is invoked, whenever at least one callback is registered;
the previous-trigger field has already been overwritten by then. -/
theorem trigger_none_payload_raises (l : EventListener) (allow : Bool)
    (h : l.callbacks ≠ []) :
    trigger l none allow
      = ⟨{ l with previousTriggerArgument := none }, [],
          some "AttributeError: NoneType object has no attribute copy"⟩ := by
  unfold trigger
  rw [if_neg (by simp [dictTruthy])]
  simp [isEmpty_false_of_ne_nil h]

/-- Witness for `trigger_none_payload_raises` at a concrete listener. -/
theorem trigger_none_payload_raises_witness :
    (⟨"m.Power", [], none, [3]⟩ : EventListener).callbacks ≠ [] ∧
    trigger ⟨"m.Power", [], none, [3]⟩ none false
      = ⟨⟨"m.Power", [], none, [3]⟩, [],
          some "AttributeError: NoneType object has no attribute copy"⟩ :=
  ⟨by decide, trigger_none_payload_raises ⟨"m.Power", [], none, [3]⟩ false (by decide)⟩

/-! Helper lemmas about the process supervisor. -/

theorem watchReset_stopped (p : ProcessWatcher) (now : Int) :
    (watchReset p now).stopped = p.stopped := by
  unfold watchReset; split <;> rfl

theorem watchStep_run (p : ProcessWatcher) (now : Int)
    (hreset : ¬(p.lastRestartedAt ≠ 0 ∧ p.lastRestartedAt ≤ now - p.retryThresholdSeconds))
    (hstop : p.stopped = false) (hlt : p.retryAttempts < p.retries) :
    watchStep p now
      = ({ p with
            retryAttempts := p.retryAttempts + 1
            lastRestartedAt := now + ((2 ^ (p.retryAttempts + 1) : Nat) : Int) },
          WatchAction.restart (2 ^ (p.retryAttempts + 1))) := by
  unfold watchStep watchReset
  rw [if_neg hreset, if_neg (by simp [hstop]), if_pos hlt]

theorem runCrashLoop_restart (p p2 : ProcessWatcher) (now : Int) (slept fuel : Nat)
    (h : watchStep p now = (p2, WatchAction.restart slept)) :
    runCrashLoop p now (fuel + 1)
      = WatchAction.restart slept :: runCrashLoop p2 (now + (slept : Int)) fuel := by
  simp only [runCrashLoop, h]

theorem runCrashLoop_last (p p2 : ProcessWatcher) (now : Int) (fuel : Nat)
    (act : WatchAction) (h : watchStep p now = (p2, act))
    (hact : ∀ s, act ≠ WatchAction.restart s) :
    runCrashLoop p now (fuel + 1) = [act] := by
  cases act with
  | restart s => exact absurd rfl (hact s)
  | failure => simp only [runCrashLoop, h]
  | noAction => simp only [runCrashLoop, h]

theorem watchStep_exhausted (p : ProcessWatcher) (now : Int)
    (hreset : ¬(p.lastRestartedAt ≠ 0 ∧ p.lastRestartedAt ≤ now - p.retryThresholdSeconds))
    (hstop : p.stopped = false) (hge : ¬ p.retryAttempts < p.retries) :
    watchStep p now = (p, WatchAction.failure) := by
  unfold watchStep watchReset
  rw [if_neg hreset, if_neg (by simp [hstop]), if_neg hge]

/-- Claim C8: whenever the exit watcher observes a child exit at a time lying at
least `retry_threshold_seconds` after the recorded last restart (and a restart
has happened before, so the timestamp is truthy), the retry counter is reset to
zero before the budget comparison: the whole watch step behaves exactly as it
would with a zero counter. -/
theorem retry_counter_reset_before_budget (p : ProcessWatcher) (now : Int)
    (h1 : p.lastRestartedAt ≠ 0)
    (h2 : p.retryThresholdSeconds ≤ now - p.lastRestartedAt) :
    (watchReset p now).retryAttempts = 0 ∧
    watchStep p now = watchStep { p with retryAttempts := 0 } now := by
  have hc : p.lastRestartedAt ≠ 0 ∧ p.lastRestartedAt ≤ now - p.retryThresholdSeconds :=
    ⟨h1, by omega⟩
  have hr : watchReset p now = { p with retryAttempts := 0 } := by
    unfold watchReset; rw [if_pos hc]
  have hr2 : watchReset { p with retryAttempts := 0 } now
      = { p with retryAttempts := 0 } := by
    unfold watchReset
    rw [if_pos hc]
  refine ⟨by rw [hr], ?_⟩
  unfold watchStep
  rw [hr, hr2]

/-- Witness for `retry_counter_reset_before_budget` at the threshold boundary. -/
theorem retry_counter_reset_before_budget_witness :
    ((⟨3, 30, false, 5, 10⟩ : ProcessWatcher).lastRestartedAt ≠ 0 ∧
      (⟨3, 30, false, 5, 10⟩ : ProcessWatcher).retryThresholdSeconds
        ≤ 40 - (⟨3, 30, false, 5, 10⟩ : ProcessWatcher).lastRestartedAt) ∧
    ((watchReset ⟨3, 30, false, 5, 10⟩ 40).retryAttempts = 0 ∧
      watchStep ⟨3, 30, false, 5, 10⟩ 40
        = watchStep ⟨3, 30, false, 0, 10⟩ 40) :=
  ⟨⟨by decide, by decide⟩,
    retry_counter_reset_before_budget ⟨3, 30, false, 5, 10⟩ 40 (by decide) (by decide)⟩

/-- Claim C4: `stop()` writes the deliberately-stopped flag strictly before it
sends the kill signal, and awaits the child's termination as its last step
before returning; consequently an exit watcher waking after `stop()` (with no
intervening `start()`) takes no action at all — in particular it never
restarts. -/
theorem stop_flag_before_kill_no_restart (p : ProcessWatcher) (now : Int) :
    (stopRun p).2.indexOf StopAction.setStoppedFlag
        < (stopRun p).2.indexOf StopAction.killProcess ∧
    (stopRun p).2.getLast? = some StopAction.awaitTermination ∧
    (watchStep (stopRun p).1 now).2 = WatchAction.noAction := by
  refine ⟨Nat.zero_lt_one, rfl, ?_⟩
  have hs : (watchReset (stopRun p).1 now).stopped = true := by
    rw [watchReset_stopped]; rfl
  unfold watchStep
  rw [if_pos hs]

/-- Claim C3: against a child that exits immediately after every start, a
supervisor with a retry budget of 3 (crashing inside the retry-threshold
window, here 30 seconds) sleeps 2, 4 and 8 seconds before restart attempts 1, 2
and 3 — `2 ^ retry_count` after the increment — and then invokes the on-failure
hook exactly once, after which no further restart is attempted, whatever the
start time and however much longer the watcher could keep running. -/
theorem crash_loop_backoff_and_failure (t : Int) (k : Nat) :
    runCrashLoop (mkProcessWatcher 3 30) t (4 + k)
      = [WatchAction.restart 2, WatchAction.restart 4, WatchAction.restart 8,
          WatchAction.failure] := by
  have e1 : watchStep (mkProcessWatcher 3 30) t
      = (⟨3, 30, false, 1, t + 2⟩, WatchAction.restart 2) := by
    rw [watchStep_run _ _ (by simp [mkProcessWatcher]) rfl (by norm_num [mkProcessWatcher])]
    norm_num [mkProcessWatcher, Prod.mk.injEq, ProcessWatcher.mk.injEq]
  have e2 : watchStep ⟨3, 30, false, 1, t + 2⟩ (t + 2)
      = (⟨3, 30, false, 2, t + 6⟩, WatchAction.restart 4) := by
    rw [watchStep_run _ _ (by rintro ⟨-, h⟩; dsimp at h; omega) rfl (by norm_num)]
    norm_num [Prod.mk.injEq, ProcessWatcher.mk.injEq]
    omega
  have e3 : watchStep ⟨3, 30, false, 2, t + 6⟩ (t + 6)
      = (⟨3, 30, false, 3, t + 14⟩, WatchAction.restart 8) := by
    rw [watchStep_run _ _ (by rintro ⟨-, h⟩; dsimp at h; omega) rfl (by norm_num)]
    norm_num [Prod.mk.injEq, ProcessWatcher.mk.injEq]
    omega
  have e4 : watchStep ⟨3, 30, false, 3, t + 14⟩ (t + 14)
      = (⟨3, 30, false, 3, t + 14⟩, WatchAction.failure) :=
    watchStep_exhausted _ _ (by rintro ⟨-, h⟩; dsimp at h; omega) rfl (by norm_num)
  have hf : 4 + k = (((k + 1) + 1) + 1) + 1 := by omega
  rw [hf, runCrashLoop_restart _ _ _ _ _ e1,
    show t + ((2 : Nat) : Int) = t + 2 from by push_cast; omega,
    runCrashLoop_restart _ _ _ _ _ e2,
    show t + 2 + ((4 : Nat) : Int) = t + 6 from by push_cast; omega,
    runCrashLoop_restart _ _ _ _ _ e3,
    show t + 6 + ((8 : Nat) : Int) = t + 14 from by push_cast; omega,
    runCrashLoop_last _ _ _ _ _ e4 (by intro s h; cases h)]

/-! Helper lemmas about decorator materialization. -/

theorem runEnvelopes_append (fid : Nat) (st : MatState) (a b : List EnvKind) :
    runEnvelopes fid st (a ++ b) = runEnvelopes fid (runEnvelopes fid st a) b := by
  induction a generalizing st with
  | nil => rfl
  | cons k rest ih =>
    simp only [List.cons_append, runEnvelopes]
    exact ih _

theorem runEnvelopes_reverse_foldr (fid : Nat) (st : MatState) (envs : List EnvKind) :
    runEnvelopes fid st envs.reverse
      = envs.foldr (fun e acc => applyStep fid acc e) st := by
  induction envs generalizing st with
  | nil => rfl
  | cons k rest ih =>
    rw [List.reverse_cons, runEnvelopes_append, ih]
    rfl

theorem applyStep_orig_envelopes (fid : Nat) (st : MatState) (k : EnvKind) :
    (applyStep fid st k).orig.envelopes = st.orig.envelopes := by
  cases k with
  | use deps =>
    by_cases h : deps.isEmpty <;> simp [applyStep, h]
  | onEvent =>
    simp only [applyStep]
    split <;> rfl

theorem runEnvelopes_orig_envelopes (fid : Nat) (st : MatState) (l : List EnvKind) :
    (runEnvelopes fid st l).orig.envelopes = st.orig.envelopes := by
  induction l generalizing st with
  | nil => rfl
  | cons k rest ih => rw [runEnvelopes, ih, applyStep_orig_envelopes]

theorem applyStep_tree (fid : Nat) (st : MatState) (k : EnvKind) :
    (applyStep fid st k).cur.tree = treeFold st.cur.tree [k] := by
  cases k with
  | use deps =>
    by_cases h : deps.isEmpty <;> simp [applyStep, treeFold, h]
  | onEvent =>
    simp [applyStep, treeFold]

theorem runEnvelopes_tree (fid : Nat) (st : MatState) (l : List EnvKind) :
    (runEnvelopes fid st l).cur.tree = treeFold st.cur.tree l := by
  induction l generalizing st with
  | nil => rfl
  | cons k rest ih =>
    rw [runEnvelopes, ih, applyStep_tree]
    cases k with
    | use deps => by_cases h : deps.isEmpty <;> simp [treeFold, h]
    | onEvent => simp [treeFold]

theorem applyStep_originalFunction (fid : Nat) (st : MatState) (k : EnvKind)
    (h : st.cur.originalFunction = fid) :
    (applyStep fid st k).cur.originalFunction = fid := by
  cases k with
  | use deps =>
    by_cases hd : deps.isEmpty <;> simp [applyStep, hd, h]
  | onEvent => rfl

theorem applyStep_coreFn (fid : Nat) (st : MatState) (k : EnvKind)
    (h : coreFn st.cur.tree = fid) :
    coreFn (applyStep fid st k).cur.tree = fid := by
  cases k with
  | use deps =>
    by_cases hd : deps.isEmpty <;> simp [applyStep, hd, coreFn, h]
  | onEvent => simpa [applyStep, coreFn] using h

theorem stagesAux_invariant (fid : Nat) (l : List EnvKind) :
    ∀ st : MatState, st.cur.originalFunction = fid → coreFn st.cur.tree = fid →
    ∀ s ∈ stagesAux fid st l, s.originalFunction = fid ∧ coreFn s.tree = fid := by
  induction l with
  | nil =>
    intro st h1 h2 s hs
    rw [stagesAux, List.mem_singleton] at hs
    exact hs ▸ ⟨h1, h2⟩
  | cons k rest ih =>
    intro st h1 h2 s hs
    rw [stagesAux, List.mem_cons] at hs
    rcases hs with hs | hs
    · exact hs ▸ ⟨h1, h2⟩
    · exact ih _ (applyStep_originalFunction fid st k h1) (applyStep_coreFn fid st k h2) s hs

/-- Claim C5: materialization composes the accumulated behavior envelopes in
reverse of their order in the envelope list: `with_decorators` on a callback
whose list holds `B1, B2, …, Bn` applies `Bn` first (innermost) and `B1` last
(outermost), producing `B1 (B2 (… Bn original …))` — the `foldr` of the apply
transform over the list; equivalently, the head envelope is applied on top of
the materialization of the tail. -/
theorem with_decorators_composition_order (fid : Nat) (f : PyFunction) :
    withDecoratorsRun fid f
      = f.envelopes.foldr (fun e acc => applyStep fid acc e)
          { cur := origStage fid f, orig := f, curIsOrig := true } ∧
    (∀ (st : MatState) (k : EnvKind) (envs : List EnvKind),
      runEnvelopes fid st (k :: envs).reverse
        = applyStep fid (runEnvelopes fid st envs.reverse) k) := by
  refine ⟨runEnvelopes_reverse_foldr fid _ f.envelopes, ?_⟩
  intro st k envs
  rw [List.reverse_cons, runEnvelopes_append]
  rfl

/-- Claim C9: materialization is idempotent per callable and non-destructive —
one `with_decorators()` run leaves the accumulated envelope list of the original
function unchanged (so a repeated run walks the same list and builds the same
wrap structure), every stage of the chain keeps `original_function` pointing at
the original, every stage ultimately invokes the original function's code, and
the original remains independently invocable, with no arguments bound. -/
theorem materialization_idempotent_nonmutating (fid : Nat) (f : PyFunction) :
    (withDecoratorsRun fid f).orig.envelopes = f.envelopes ∧
    (withDecoratorsRun fid (withDecoratorsRun fid f).orig).cur.tree
      = (withDecoratorsRun fid f).cur.tree ∧
    (∀ s ∈ stagesList fid f, s.originalFunction = fid ∧ coreFn s.tree = fid) ∧
    callStage (origStage fid (withDecoratorsRun fid f).orig) [] = (fid, []) := by
  have henv : (withDecoratorsRun fid f).orig.envelopes = f.envelopes :=
    runEnvelopes_orig_envelopes fid _ _
  refine ⟨henv, ?_, ?_, rfl⟩
  · show (runEnvelopes fid
        { cur := origStage fid (withDecoratorsRun fid f).orig
          orig := (withDecoratorsRun fid f).orig
          curIsOrig := true }
        (withDecoratorsRun fid f).orig.envelopes.reverse).cur.tree
      = (runEnvelopes fid
          { cur := origStage fid f, orig := f, curIsOrig := true }
          f.envelopes.reverse).cur.tree
    rw [runEnvelopes_tree, runEnvelopes_tree, henv]
    rfl
  · exact stagesAux_invariant fid f.envelopes.reverse _ rfl rfl

/-! Helper lemmas for the registry-key encoding. -/

theorem plain_no_squote {s : String} (h : plainStr s = true) : squote ∉ s.data := by
  intro hm
  rw [plainStr, List.all_eq_true] at h
  exact absurd (h squote hm) (by decide)

theorem sep_split {c : Char} :
    ∀ a b r1 r2 : List Char, c ∉ a → c ∉ b →
      a ++ c :: r1 = b ++ c :: r2 → a = b ∧ r1 = r2 := by
  intro a
  induction a with
  | nil =>
    intro b r1 r2 _ hb h
    cases b with
    | nil => simpa using h
    | cons x xs =>
      rw [List.nil_append, List.cons_append, List.cons.injEq] at h
      exact absurd (by rw [h.1]; exact List.mem_cons_self x xs) hb
  | cons x xs ih =>
    intro b r1 r2 ha hb h
    cases b with
    | nil =>
      rw [List.nil_append, List.cons_append, List.cons.injEq] at h
      exact absurd (by rw [← h.1]; exact List.mem_cons_self x xs) ha
    | cons y ys =>
      rw [List.cons_append, List.cons_append, List.cons.injEq] at h
      obtain ⟨hxy, htl⟩ := h
      obtain ⟨hh, ht⟩ := ih ys r1 r2 (fun hm => ha (List.mem_cons_of_mem _ hm))
        (fun hm => hb (List.mem_cons_of_mem _ hm)) htl
      exact ⟨by rw [hxy, hh], ht⟩

theorem entriesC_cons (k v : List Char) (t : List (List Char × List Char)) :
    entriesC ((k, v) :: t)
      = entryC k v ++ (if t.isEmpty then [] else ',' :: ' ' :: entriesC t) := by
  cases t with
  | nil => simp [entriesC]
  | cons e r => simp [entriesC]

theorem entry_split (k1 v1 k2 v2 X1 X2 : List Char)
    (hk1 : squote ∉ k1) (hv1 : squote ∉ v1) (hk2 : squote ∉ k2) (hv2 : squote ∉ v2)
    (h : entryC k1 v1 ++ X1 = entryC k2 v2 ++ X2) :
    k1 = k2 ∧ v1 = v2 ∧ X1 = X2 := by
  simp only [entryC, List.cons_append, List.append_assoc, List.singleton_append,
    List.cons.injEq, true_and] at h
  obtain ⟨hk, hrest⟩ := sep_split _ _ _ _ hk1 hk2 h
  simp only [List.cons.injEq, true_and] at hrest
  obtain ⟨hv, hX⟩ := sep_split _ _ _ _ hv1 hv2 hrest
  exact ⟨hk, hv, hX⟩

theorem entriesC_inj :
    ∀ a b : List (List Char × List Char),
      (∀ kv ∈ a, squote ∉ kv.1 ∧ squote ∉ kv.2) →
      (∀ kv ∈ b, squote ∉ kv.1 ∧ squote ∉ kv.2) →
      entriesC a = entriesC b → a = b := by
  intro a
  induction a with
  | nil =>
    intro b _ _ h
    cases b with
    | nil => rfl
    | cons kv t =>
      obtain ⟨k, v⟩ := kv
      rw [entriesC, entriesC_cons] at h
      simp [entryC] at h
  | cons kv t1 ih =>
    intro b ha hb h
    obtain ⟨k1, v1⟩ := kv
    cases b with
    | nil =>
      rw [entriesC, entriesC_cons] at h
      simp [entryC] at h
    | cons kv2 t2 =>
      obtain ⟨k2, v2⟩ := kv2
      have hah := ha (k1, v1) (List.mem_cons_self _ _)
      have hbh := hb (k2, v2) (List.mem_cons_self _ _)
      rw [entriesC_cons, entriesC_cons] at h
      obtain ⟨hk, hv, hX⟩ := entry_split k1 v1 k2 v2 _ _ hah.1 hah.2 hbh.1 hbh.2 h
      cases t1 with
      | nil =>
        cases t2 with
        | nil => rw [hk, hv]
        | cons e2 r2 => simp at hX
      | cons e1 r1 =>
        cases t2 with
        | nil => simp at hX
        | cons e2 r2 =>
          simp only [List.isEmpty_cons, Bool.false_eq_true, if_false,
            List.cons.injEq, true_and] at hX
          rw [hk, hv, ih (e2 :: r2) (fun kv hm => ha kv (List.mem_cons_of_mem _ hm))
            (fun kv hm => hb kv (List.mem_cons_of_mem _ hm)) hX]

theorem encDict_inj (a b : List (List Char × List Char))
    (ha : ∀ kv ∈ a, squote ∉ kv.1 ∧ squote ∉ kv.2)
    (hb : ∀ kv ∈ b, squote ∉ kv.1 ∧ squote ∉ kv.2)
    (h : encDict a = encDict b) : a = b := by
  rw [encDict, encDict, List.cons_append, List.cons_append, List.cons.injEq] at h
  exact entriesC_inj a b ha hb (List.append_inj' h.2 rfl).1

theorem plain_map_no_squote {a : PyDict String} (h : plainAttrs a = true) :
    ∀ kv ∈ a.map fun kv => (kv.1.data, kv.2.data), squote ∉ kv.1 ∧ squote ∉ kv.2 := by
  intro kv hm
  rw [List.mem_map] at hm
  obtain ⟨⟨k, v⟩, hmem, rfl⟩ := hm
  rw [plainAttrs, List.all_eq_true] at h
  have hp := h (k, v) hmem
  rw [Bool.and_eq_true] at hp
  exact ⟨plain_no_squote hp.1, plain_no_squote hp.2⟩

theorem data_pair_injective :
    Function.Injective (fun kv : String × String => (kv.1.data, kv.2.data)) := by
  intro x y h
  obtain ⟨k1, v1⟩ := x
  obtain ⟨k2, v2⟩ := y
  simp only [Prod.mk.injEq] at h ⊢
  exact ⟨String.ext h.1, String.ext h.2⟩

theorem lookupKey_data_nonempty (c : String) (a : PyDict String)
    (h : a.isEmpty = false) :
    (lookupKey c a).data
      = c.data ++ '[' :: (encDict (a.map fun kv => (kv.1.data, kv.2.data)) ++ [']']) := by
  rw [lookupKey, if_neg (by simp [h])]
  show (c ++ "[" ++ pyStrDict a ++ "]").data = _
  rw [String.data_append, String.data_append, String.data_append]
  show c.data ++ ['['] ++ encDict (a.map fun kv => (kv.1.data, kv.2.data)) ++ [']'] = _
  simp [List.append_assoc]

theorem lookupKey_inj (c : String) (a1 a2 : PyDict String)
    (h1 : plainAttrs a1 = true) (h2 : plainAttrs a2 = true)
    (h : lookupKey c a1 = lookupKey c a2) : a1 = a2 := by
  by_cases e1 : a1.isEmpty = true <;> by_cases e2 : a2.isEmpty = true
  · rw [List.isEmpty_iff.mp e1, List.isEmpty_iff.mp e2]
  · exfalso
    have hd := congrArg String.data h
    rw [List.isEmpty_iff.mp e1] at hd
    rw [lookupKey_data_nonempty c a2 (Bool.not_eq_true _ ▸ e2)] at hd
    have hlen := congrArg List.length hd
    simp only [lookupKey, if_pos rfl] at hlen
    simp [List.length_append] at hlen
  · exfalso
    have hd := congrArg String.data h
    rw [List.isEmpty_iff.mp e2] at hd
    rw [lookupKey_data_nonempty c a1 (Bool.not_eq_true _ ▸ e1)] at hd
    have hlen := congrArg List.length hd
    simp only [lookupKey, if_pos rfl] at hlen
    simp [List.length_append] at hlen
  · have hd := congrArg String.data h
    rw [lookupKey_data_nonempty c a1 (Bool.not_eq_true _ ▸ e1),
      lookupKey_data_nonempty c a2 (Bool.not_eq_true _ ▸ e2)] at hd
    have h3 := List.append_cancel_left hd
    rw [List.cons.injEq] at h3
    have h4 := (List.append_inj' h3.2 rfl).1
    exact List.map_injective_iff.mpr data_pair_injective
      (encDict_inj _ _ (plain_map_no_squote h1) (plain_map_no_squote h2) h4)

/-! Helper lemmas about the listener registry. -/

theorem dictLookup_append {α : Type} (xs : PyDict α) (k : String) (v : α)
    (h : dictLookup xs k = none) : dictLookup (xs ++ [(k, v)]) k = some v := by
  induction xs with
  | nil => simp [dictLookup]
  | cons kv rest ih =>
    obtain ⟨k2, w⟩ := kv
    rw [dictLookup] at h
    by_cases hk : k2 = k
    · rw [if_pos hk] at h
      cases h
    · rw [List.cons_append, dictLookup, if_neg hk]
      exact ih (by rwa [if_neg hk] at h)

theorem dictLookup_dictUpdate_other {α : Type} (xs : PyDict α) (k1 k2 : String)
    (f : α → α) (h : k1 ≠ k2) :
    dictLookup (dictUpdate xs k2 f) k1 = dictLookup xs k1 := by
  induction xs with
  | nil => rfl
  | cons kv rest ih =>
    obtain ⟨k, v⟩ := kv
    rw [dictUpdate]
    by_cases hk : k = k2
    · have hk1 : ¬ k = k1 := fun he => h (he ▸ hk)
      rw [if_pos hk, dictLookup, dictLookup, if_neg hk1, if_neg hk1]
    · rw [if_neg hk, dictLookup, dictLookup]
      by_cases hkk : k = k1
      · rw [if_pos hkk, if_pos hkk]
      · rw [if_neg hkk, if_neg hkk]
        exact ih

theorem getListener_key (w : EventWatcher) (c : String) (a : PyDict String) :
    (getListener w c a).2 = lookupKey c a := by
  unfold getListener
  cases hl : dictLookup w.listeners (lookupKey c a) <;> simp [hl]

theorem getListener_stable (w : EventWatcher) (c : String) (a : PyDict String) :
    getListener (getListener w c a).1 c a = getListener w c a := by
  unfold getListener
  cases hl : dictLookup w.listeners (lookupKey c a) with
  | some l => simp [hl]
  | none => simp [hl, dictLookup_append _ _ _ hl]

/-- Claim C6, amended (counterexample: `listener_key_order_cex`): two callback
registrations naming the same listener type and the same attribute dict — in
the same serialized form, i.e. the same insertion order — resolve to the same
singleton instance: resolving again changes nothing and returns the same
registry slot.  Registrations with the same type but attribute dicts of
different serialized forms (in particular, dicts that differ as mappings) get
distinct registry keys and therefore distinct instances, and their states are
independent: adding a callback through one key leaves the instance under the
other key untouched.  Equal mappings serialized in different insertion orders,
however, also yield distinct instances, which is what forces this amendment. -/
theorem listener_identity_amended (w : EventWatcher) (c : String)
    (a1 a2 : PyDict String) (cb : Nat)
    (h1 : plainAttrs a1 = true) (h2 : plainAttrs a2 = true) (hne : a1 ≠ a2) :
    getListener (getListener w c a1).1 c a1 = getListener w c a1 ∧
    lookupKey c a1 ≠ lookupKey c a2 ∧
    dictLookup
        (watcherAddCallback (getListener (getListener w c a1).1 c a2).1 c a2 cb).listeners
        (lookupKey c a1)
      = dictLookup (getListener (getListener w c a1).1 c a2).1.listeners
          (lookupKey c a1) := by
  have hkey : lookupKey c a1 ≠ lookupKey c a2 :=
    fun he => hne (lookupKey_inj c a1 a2 h1 h2 he)
  refine ⟨getListener_stable w c a1, hkey, ?_⟩
  show dictLookup
      (dictUpdate
        (getListener (getListener (getListener w c a1).1 c a2).1 c a2).1.listeners
        (getListener (getListener (getListener w c a1).1 c a2).1 c a2).2
        fun l => { l with callbacks := l.callbacks ++ [cb] })
      (lookupKey c a1) = _
  rw [getListener_stable, getListener_key]
  exact dictLookup_dictUpdate_other _ _ _ _ hkey

/-- Witness for `listener_identity_amended` at a concrete registry. -/
theorem listener_identity_amended_witness :
    (plainAttrs [("a", "1")] = true ∧ plainAttrs [("a", "2")] = true ∧
      ([("a", "1")] : PyDict String) ≠ [("a", "2")]) ∧
    (getListener (getListener ⟨[]⟩ "m.Net" [("a", "1")]).1 "m.Net" [("a", "1")]
        = getListener ⟨[]⟩ "m.Net" [("a", "1")] ∧
      lookupKey "m.Net" [("a", "1")] ≠ lookupKey "m.Net" [("a", "2")] ∧
      dictLookup
          (watcherAddCallback
            (getListener (getListener ⟨[]⟩ "m.Net" [("a", "1")]).1 "m.Net" [("a", "2")]).1
            "m.Net" [("a", "2")] 5).listeners
          (lookupKey "m.Net" [("a", "1")])
        = dictLookup
            (getListener (getListener ⟨[]⟩ "m.Net" [("a", "1")]).1 "m.Net" [("a", "2")]).1.listeners
            (lookupKey "m.Net" [("a", "1")])) :=
  ⟨⟨by decide, by decide, by decide⟩,
    listener_identity_amended ⟨[]⟩ "m.Net" [("a", "1")] [("a", "2")] 5
      (by decide) (by decide) (by decide)⟩

/-- Claim C6 counterexample: the registry keys on the *string serialization* of
the attribute dict, which records insertion order, while Python dict equality
does not — two registrations whose attribute dicts are equal as mappings but
were written in different orders resolve to two distinct listener instances. -/
theorem listener_key_order_cex :
    pyDictEq ([("a", "1"), ("b", "2")] : PyDict String) [("b", "2"), ("a", "1")] = true ∧
    (getListener (getListener ⟨[]⟩ "m.Net" [("a", "1"), ("b", "2")]).1
        "m.Net" [("b", "2"), ("a", "1")]).2
      ≠ (getListener ⟨[]⟩ "m.Net" [("a", "1"), ("b", "2")]).2 ∧
    (getListener (getListener ⟨[]⟩ "m.Net" [("a", "1"), ("b", "2")]).1
        "m.Net" [("b", "2"), ("a", "1")]).1.listeners.length = 2 := by
  refine ⟨by decide, ?_, by decide⟩
  decide

/-- Claim C7 counterexample: the dispatch loop copies the payload and writes the
listener class name under the `"event-class"` key before handing it to the
callback, so the callback's leading argument is the *augmented* dict, not the
bare `\x7b"level": 50\x7d` payload the claim states. -/
theorem battery_leading_argument_cex :
    batteryT1.invocations
      = [(0, [("level", PyVal.int 50), ("event-class", PyVal.str "config.Battery")])] ∧
    batteryT1.invocations ≠ [(0, [("level", PyVal.int 50)])] := by
  refine ⟨rfl, ?_⟩
  decide

/-- Claim C7, amended (counterexample: `battery_leading_argument_cex`): for a
`Battery` listener with no attribute overrides and one callback registered via
`on(Battery)`, triggering `\x7b"level": 50\x7d` invokes the callback once, with
the payload augmented with the `event-class` entry as its leading argument;
triggering `\x7b"level": 50\x7d` again invokes no callback; triggering
`\x7b"level": 40\x7d` then invokes the callback with the augmented
`\x7b"level": 40\x7d` payload.  No call raises.  The last conjunct traces the
leading-argument binding through `OnDecorator.apply`: materializing the
callback with its `on` envelope and the pending event object binds exactly that
event as the one leading positional argument. -/
theorem battery_scenario_amended :
    batteryListener.callbacks = [0] ∧
    batteryT1.invocations
      = [(0, [("level", PyVal.int 50), ("event-class", PyVal.str "config.Battery")])] ∧
    batteryT1.raised = none ∧
    batteryT2.invocations = [] ∧
    batteryT2.raised = none ∧
    batteryT3.invocations
      = [(0, [("level", PyVal.int 40), ("event-class", PyVal.str "config.Battery")])] ∧
    batteryT3.raised = none ∧
    (withDecoratorsRun 0
        ⟨[EnvKind.onEvent],
          some [("level", PyVal.int 50), ("event-class", PyVal.str "config.Battery")]⟩).cur.bound
      = [PyArg.event
          (some [("level", PyVal.int 50), ("event-class", PyVal.str "config.Battery")])] := by
  refine ⟨rfl, rfl, rfl, ?_, rfl, ?_, rfl, rfl⟩ <;> decide

end Wmcompanion
